import Mathlib

/-!
Verification of the tetrimino game engine against its natural-language
specification.  The repository's provided source is `src/src/main.rs`;
its pure logic (`update_vec`, `handle_events`, `print_game_information`,
the spawn check of `main`) is translated directly.  The modules
`main.rs` declares but whose files are not part of the provided tree
(`tetrimino.rs`, `shape.rs`, `score.rs`) are modelled from the
specification text; every such definition is marked
`Modelled from the spec:` in its doc comment.
-/

/-- Rust constant `NB_HIGHSOCRES` (sic), src/src/main.rs line 19. -/
def NB_HIGHSOCRES : Nat := 5

/-- The replacement loop of `update_vec` (src/src/main.rs lines 146-152):
walk the list front to back and overwrite the first entry strictly
smaller than `value`, reporting whether a replacement happened. -/
def replace_first : List Nat → Nat → List Nat × Bool
  | [], _ => ([], false)
  | e :: es, value =>
    if value > e then (value :: es, true)
    else
      let r := replace_first es value
      (e :: r.1, r.2)

/-- Rust `update_vec` (src/src/main.rs lines 139-154): with fewer than
`NB_HIGHSOCRES` entries the value is pushed and the vector sorted
ascending (`Vec::push` then `Vec::sort`); otherwise the first entry
smaller than the value is overwritten in place, with no re-sort. -/
def update_vec (v : List Nat) (value : Nat) : List Nat × Bool :=
  if v.length < NB_HIGHSOCRES then
    (List.insertionSort (· ≤ ·) (v ++ [value]), true)
  else
    replace_first v value

/-- Modelled from the spec: the playfield is a fixed 10-column grid. -/
def grid_width : Nat := 10

/-- Modelled from the spec: the playfield is a fixed 16-row grid. -/
def grid_height : Nat := 16

/-- Modelled from the spec: the playfield is a 2-D array of small
integers in row-major order (`tetris.game_map`), 0 = empty,
1..7 = colour index of a permanently placed block. -/
abbrev Grid := List (List Nat)

/-- Modelled from the spec (the struct `main.rs` accesses as
`piece.states`, `piece.current_state`, `piece.x`, `piece.y`): a live
tetrimino with its precomputed rotation bitmaps, the index of the
current rotation state, and signed anchor coordinates. -/
structure Piece where
  states : List (List (List Nat))
  current_state : Nat
  x : Int
  y : Int
deriving DecidableEq

/-- The bitmap of the current rotation state, i.e.
`piece.states[piece.current_state]` in src/src/main.rs. -/
def Piece.bitmap (p : Piece) : List (List Nat) :=
  p.states.getD p.current_state []

/-- Modelled from the spec: `is_occupied(col, row)` — out-of-bounds
columns and rows past the bottom count as occupied (they block
movement), rows above the visible top count as unoccupied (permits the
spawn overlap), and inside the grid a cell is occupied iff it holds a
nonzero colour. -/
def is_occupied (g : Grid) (col row : Int) : Bool :=
  decide (col < 0) || decide ((grid_width : Int) ≤ col) ||
  decide ((grid_height : Int) ≤ row) ||
  (decide (0 ≤ row) && ((g.getD row.toNat []).getD col.toNat 0 != 0))

/-- Modelled from the spec: the shared "can-place" predicate — every
nonzero cell of the bitmap anchored at `(x, y)` must land on an
unoccupied position. -/
def can_place (g : Grid) (bm : List (List Nat)) (x y : Int) : Bool :=
  (List.range bm.length).all fun i =>
    (List.range (bm.getD i []).length).all fun j =>
      ((bm.getD i []).getD j 0 == 0) || !(is_occupied g (x + (j : Int)) (y + (i : Int)))

/-- Modelled from the spec: `test_position(grid, x, y)` — the current
rotation state fits at the candidate coordinates. -/
def test_position (g : Grid) (p : Piece) (nx ny : Int) : Bool :=
  can_place g p.bitmap nx ny

/-- Modelled from the spec: `change_position(grid, new_x, new_y)` —
commit the coordinates when the test passes, otherwise leave the piece
untouched; return the success flag. -/
def change_position (g : Grid) (p : Piece) (nx ny : Int) : Piece × Bool :=
  if test_position g p nx ny then ({ p with x := nx, y := ny }, true)
  else (p, false)

/-- Modelled from the spec: `rotate(grid)` — cyclic increment of the
state index, committed only when the rotated bitmap fits at the
unchanged anchor; no wall kick, silent rejection otherwise. -/
def rotate (g : Grid) (p : Piece) : Piece :=
  let ns := (p.current_state + 1) % p.states.length
  if can_place g (p.states.getD ns []) p.x p.y then { p with current_state := ns }
  else p

/-- Modelled from the spec: `test_current_position(grid)` —
`test_position` at the piece's own coordinates, used to validate a
freshly spawned piece. -/
def test_current_position (g : Grid) (p : Piece) : Bool :=
  test_position g p p.x p.y

/-- Modelled from the spec (fields exactly as src/src/main.rs uses
them): the engine state owning the playfield, the optional falling
piece and the session counters. -/
structure Tetris where
  game_map : Grid
  current_piece : Option Piece
  score : Nat
  nb_lines : Nat
  current_level : Nat
deriving DecidableEq

/-- The bitmap value at signed offsets `(i, j)`; 0 outside the bitmap. -/
def bitmap_at (bm : List (List Nat)) (i j : Int) : Nat :=
  if 0 ≤ i ∧ 0 ≤ j then (bm.getD i.toNat []).getD j.toNat 0 else 0

/-- Modelled from the spec: `merge(piece)` — write every nonzero bitmap
cell of the piece into the corresponding grid cell; all other cells are
unchanged. -/
def merge (g : Grid) (p : Piece) : Grid :=
  (List.range g.length).map fun (r : Nat) =>
    (List.range (g.getD r []).length).map fun (c : Nat) =>
      let v := bitmap_at p.bitmap ((r : Int) - p.y) ((c : Int) - p.x)
      if v ≠ 0 then v else (g.getD r []).getD c 0

/-- Modelled from the spec: `clear_completed_rows()` — a row is complete
iff every cell is nonzero; complete rows are removed, the remaining
rows shift down, and as many empty rows are inserted at the top.
Returns the number of rows cleared. -/
def clear_completed_rows (g : Grid) : Grid × Nat :=
  let kept := g.filter fun row => !(row.all fun cell => cell != 0)
  let n := g.length - kept.length
  (List.replicate n (List.replicate grid_width 0) ++ kept, n)

/-- Modelled from the spec: the per-merge score bonus, super-linear in
rows cleared and scaled by the level (the conventional 40/100/300/1200
curve; the spec leaves the exact constants open). -/
def score_for_lines (n level : Nat) : Nat :=
  [0, 40, 100, 300, 1200].getD n 0 * level

/-- Modelled from the spec: `tetris.make_permanent()` — merge the
current piece into the playfield, clear completed rows, bump the
counters (the level grows every 10 total lines) and destroy the
piece. -/
def make_permanent (t : Tetris) : Tetris :=
  match t.current_piece with
  | none => t
  | some p =>
    let g1 := merge t.game_map p
    let r := clear_completed_rows g1
    let lines := t.nb_lines + r.2
    { game_map := r.1
      current_piece := none
      score := t.score + score_for_lines r.2 t.current_level
      nb_lines := lines
      current_level := lines / 10 + 1 }

/-- The discrete input events handled by `handle_events` in
src/src/main.rs: quit/escape, the Down, Right, Left and Up keys, and
the space bar. -/
inductive GEvent where
  | quit
  | softDrop
  | right
  | left
  | rotateEv
  | hardDrop
deriving DecidableEq

/-- The mutable locals of the `handle_events` event loop
(src/src/main.rs lines 69-122): the borrowed piece, the accumulated
move target `tmp_x`/`tmp_y`, the quit flag, the gravity timer and the
`make_permanent` flag. -/
structure LoopState where
  piece : Piece
  tmp_x : Int
  tmp_y : Int
  quit : Bool
  timer : Nat
  make_permanent : Bool
deriving DecidableEq

/-- The bitmap has at least one nonzero cell — true of every rotation
state of the shape catalogue, whose bitmaps mark the piece's occupied
cells. -/
def has_block (bm : List (List Nat)) : Bool :=
  (List.range bm.length).any fun i =>
    (List.range (bm.getD i []).length).any fun j =>
      (bm.getD i []).getD j 0 != 0

/-- The hard-drop loop of src/src/main.rs lines 113-117: keep moving
the piece one row down while `change_position` succeeds.  `fuel` bounds
the recursion; `hard_drop` below passes a fuel that provably reaches
the loop's exit condition for every piece with at least one block
(lemma `hard_drop_loop_spec`), since every successful downward move
keeps the piece above the fixed bottom of the grid. -/
def hard_drop_loop (g : Grid) (x : Int) : Nat → Piece → Piece
  | 0, p => p
  | fuel + 1, p =>
    let r := change_position g p x (p.y + 1)
    if r.2 then hard_drop_loop g x fuel r.1 else r.1

/-- The whole space-bar handler body (src/src/main.rs lines 113-118). -/
def hard_drop (g : Grid) (p : Piece) : Piece :=
  hard_drop_loop g p.x ((grid_height : Int) - p.y).toNat p

/-- The event loop of `handle_events` (src/src/main.rs lines 74-122):
a quit/escape event breaks the loop; Down stamps the timer and bumps
the vertical target; Right/Left bump the horizontal target; Up rotates
the piece in place; space hard-drops the piece and schedules the
merge. -/
def process_events (g : Grid) (now : Nat) : List GEvent → LoopState → LoopState
  | [], s => s
  | e :: es, s =>
    match e with
    | .quit => { s with quit := true }
    | .softDrop => process_events g now es { s with timer := now, tmp_y := s.tmp_y + 1 }
    | .right => process_events g now es { s with tmp_x := s.tmp_x + 1 }
    | .left => process_events g now es { s with tmp_x := s.tmp_x - 1 }
    | .rotateEv => process_events g now es { s with piece := rotate g s.piece }
    | .hardDrop =>
        process_events g now es
          { s with piece := hard_drop g s.piece, make_permanent := true }

/-- The events the loop actually consumes: everything before the first
quit/escape event, which breaks the loop. -/
def consumed_events : List GEvent → List GEvent
  | [] => []
  | .quit :: _ => []
  | e :: es => e :: consumed_events es

/-- Net horizontal displacement a list of consumed events accumulates
in `tmp_x`. -/
def net_dx : List GEvent → Int
  | [] => 0
  | .right :: es => net_dx es + 1
  | .left :: es => net_dx es - 1
  | _ :: es => net_dx es

/-- Number of Down events, i.e. the net displacement a list of consumed
events accumulates in `tmp_y`. -/
def net_dy : List GEvent → Nat
  | [] => 0
  | .softDrop :: es => net_dy es + 1
  | _ :: es => net_dy es

/-- The post-loop body of `handle_events` (src/src/main.rs lines
124-128): when no hard drop happened, attempt the accumulated move; a
failed move whose target row differs from the piece's row schedules the
merge. -/
def post_move_check (g : Grid) (s : LoopState) : LoopState :=
  if s.make_permanent then s
  else
    let r := change_position g s.piece s.tmp_x s.tmp_y
    if r.2 = false ∧ s.tmp_y ≠ r.1.y then
      { s with piece := r.1, make_permanent := true }
    else { s with piece := r.1 }

/-- Result of one `handle_events` call: the updated engine state, the
quit flag and gravity timer after the call, and the returned
`make_permanent` boolean. -/
structure EventsResult where
  tetris : Tetris
  quit : Bool
  timer : Nat
  made_permanent : Bool
deriving DecidableEq

/-- The tail of `handle_events` (src/src/main.rs lines 131-136): when a
merge is scheduled, `tetris.make_permanent()` runs and the timer is
stamped with the current time. -/
def finish_frame (t : Tetris) (now : Nat) (s : LoopState) : EventsResult :=
  if s.make_permanent then
    { tetris := make_permanent { t with current_piece := some s.piece }
      quit := s.quit
      timer := now
      made_permanent := true }
  else
    { tetris := { t with current_piece := some s.piece }
      quit := s.quit
      timer := s.timer
      made_permanent := false }

/-- Rust `handle_events` (src/src/main.rs lines 63-137), with the
event pump, the wall clock and the mutable references made explicit:
`timer` is the gravity timer going in, `now` the value
`SystemTime::now()` yields during this frame, `events` what the pump
yields.  With no live piece nothing happens. -/
def handle_events (t : Tetris) (timer now : Nat) (events : List GEvent) : EventsResult :=
  match t.current_piece with
  | none => { tetris := t, quit := false, timer := timer, made_permanent := false }
  | some piece =>
    let s0 : LoopState :=
      { piece := piece, tmp_x := piece.x, tmp_y := piece.y
        quit := false, timer := timer, make_permanent := false }
    finish_frame t now (post_move_check t.game_map (process_events t.game_map now events s0))

/-- Where the game-over report of `print_game_information` goes: the
two "[NEW HIGHSCORE]" labels, the ledger contents written back (`none`
when nothing is saved), and the printed counters. -/
structure GameReport where
  new_highest_score : Bool
  new_highest_lines_sent : Bool
  saved : Option (List Nat × List Nat)
  score : Nat
  nb_lines : Nat
  level : Nat
deriving DecidableEq

/-- Rust `print_game_information` (src/src/main.rs lines 156-191) with
the ledger I/O made explicit: `loaded` is what
`score::load_highscores_and_lines()` returned, the `saved` field is
what `score::save_highscores_and_lines` is called with, if at all. -/
def print_game_information (loaded : Option (List Nat × List Nat)) (t : Tetris) : GameReport :=
  match loaded with
  | some (highscores, lines_sent) =>
    let r1 := update_vec highscores t.score
    let r2 := update_vec lines_sent t.nb_lines
    { new_highest_score := r1.2
      new_highest_lines_sent := r2.2
      saved := if r1.2 || r2.2 then some (r1.1, r2.1) else none
      score := t.score
      nb_lines := t.nb_lines
      level := t.current_level }
  | none =>
    { new_highest_score := true
      new_highest_lines_sent := true
      saved := some ([t.score], [t.nb_lines])
      score := t.score
      nb_lines := t.nb_lines
      level := t.current_level }

/-- Outcome of the spawn check at the top of the main loop. -/
inductive SpawnResult where
  | gameOver (report : GameReport) (final : Tetris)
  | playing (t : Tetris)
deriving DecidableEq

/-- The spawn phase of the main loop (src/src/main.rs lines 370-377):
when no piece is live, a fresh piece (`create_new_tetrimino`, a random
choice modelled as the argument `newPiece`) is validated with
`test_current_position`; failure prints the game-over report and ends
the session with the state untouched, success installs the piece. -/
def spawn_step (t : Tetris) (newPiece : Piece) (loaded : Option (List Nat × List Nat)) :
    SpawnResult :=
  if t.current_piece.isNone then
    if test_current_position t.game_map newPiece = false then
      .gameOver (print_game_information loaded t) t
    else .playing { t with current_piece := some newPiece }
  else .playing t

/-- An all-empty 10 by 16 playfield. -/
def empty_grid : Grid := List.replicate grid_height (List.replicate grid_width 0)

/-- A completely filled playfield. -/
def full_grid : Grid := List.replicate grid_height (List.replicate grid_width 1)

/-- A one-cell piece, the smallest bitmap exercising the movement
code. -/
def unit_piece (x y : Int) : Piece :=
  { states := [[[3]]], current_state := 0, x := x, y := y }

/-- The O piece of the shape catalogue, colour 5. -/
def o_piece (x y : Int) : Piece :=
  { states := [[[5, 5], [5, 5]]], current_state := 0, x := x, y := y }

/-- A fresh engine state over a given playfield and piece. -/
def fresh_tetris (g : Grid) (p : Option Piece) : Tetris :=
  { game_map := g, current_piece := p, score := 0, nb_lines := 0, current_level := 1 }

/-! ### Lemmas about the `update_vec` replacement loop -/

theorem replace_first_length (x : Nat) (v : List Nat) :
    ((replace_first v x).1).length = v.length := by
  induction v with
  | nil => rfl
  | cons e es ih =>
    by_cases hxe : x > e
    · simp [replace_first, hxe]
    · simp [replace_first, hxe, ih]

theorem replace_first_false (x : Nat) (v : List Nat) (h : (replace_first v x).2 = false) :
    (replace_first v x).1 = v := by
  induction v with
  | nil => rfl
  | cons e es ih =>
    by_cases hxe : x > e
    · simp [replace_first, hxe] at h
    · simp only [replace_first, if_neg hxe] at h ⊢
      exact congrArg (List.cons e) (ih h)

theorem replace_first_true_iff (x : Nat) (v : List Nat) :
    (replace_first v x).2 = true ↔ ∃ e ∈ v, e < x := by
  induction v with
  | nil => simp [replace_first]
  | cons e es ih =>
    by_cases hxe : x > e
    · constructor
      · intro _
        exact ⟨e, List.mem_cons_self e es, hxe⟩
      · intro _
        simp [replace_first, hxe]
    · constructor
      · intro h
        have h2 : (replace_first es x).2 = true := by
          simpa [replace_first, hxe] using h
        obtain ⟨a, ha, hax⟩ := ih.mp h2
        exact ⟨a, List.mem_cons_of_mem e ha, hax⟩
      · rintro ⟨a, ha, hax⟩
        have ha' : a ∈ es := by
          rcases List.mem_cons.mp ha with rfl | h'
          · exact absurd hax hxe
          · exact h'
        have h2 := ih.mpr ⟨a, ha', hax⟩
        simpa [replace_first, hxe] using h2

theorem replace_first_set (x : Nat) (v : List Nat) (h : (replace_first v x).2 = true) :
    ∃ i, i < v.length ∧ v.getD i 0 < x ∧ (∀ j, j < i → x ≤ v.getD j 0) ∧
      (replace_first v x).1 = v.set i x := by
  induction v with
  | nil => simp [replace_first] at h
  | cons e es ih =>
    by_cases hxe : x > e
    · refine ⟨0, by simp, by simpa using hxe, fun j hj => absurd hj (Nat.not_lt_zero j), ?_⟩
      simp [replace_first, hxe]
    · have h2 : (replace_first es x).2 = true := by
        simpa [replace_first, hxe] using h
      obtain ⟨i, hi, hlt, hup, heq⟩ := ih h2
      refine ⟨i + 1, by simpa using hi, by simpa using hlt, ?_, ?_⟩
      · intro j hj
        cases j with
        | zero => simpa using Nat.not_lt.mp hxe
        | succ j' => simpa using hup j' (by omega)
      · simp [replace_first, hxe, heq]

theorem replace_first_ne (x : Nat) (v : List Nat) (h : (replace_first v x).2 = true) :
    (replace_first v x).1 ≠ v := by
  induction v with
  | nil => simp [replace_first] at h
  | cons e es ih =>
    by_cases hxe : x > e
    · have hr : (replace_first (e :: es) x).1 = x :: es := by simp [replace_first, hxe]
      rw [hr]
      intro hc
      simp only [List.cons.injEq] at hc
      omega
    · have hr : (replace_first (e :: es) x).1 = e :: (replace_first es x).1 := by
        simp [replace_first, hxe]
      have h2 : (replace_first es x).2 = true := by
        simpa [replace_first, hxe] using h
      rw [hr]
      intro hc
      simp only [List.cons.injEq, true_and] at hc
      exact ih h2 hc

/-! ### Claims about the score ledger -/

/-- C9: `update_vec` returns `true` iff it modified the list; whenever
it returns `false`, the list is exactly as it was before the call. -/
theorem C9_update_vec_true_iff_modified (v : List Nat) (x : Nat) :
    (update_vec v x).2 = true ↔ (update_vec v x).1 ≠ v := by
  by_cases h5 : v.length < NB_HIGHSOCRES
  · simp only [update_vec, if_pos h5]
    constructor
    · intro _ heq
      have hl := congrArg List.length heq
      simp at hl
    · intro _
      trivial
  · simp only [update_vec, if_neg h5]
    constructor
    · exact replace_first_ne x v
    · intro hne
      cases hb : (replace_first v x).2 with
      | false => exact absurd (replace_first_false x v hb) hne
      | true => rfl

/-- C2 is false as stated: on a full, ascending-sorted list the
replacement branch of `update_vec` overwrites the first (minimum)
entry in place without re-sorting, so the result can be unsorted. -/
theorem C2_counterexample :
    List.Sorted (· ≤ ·) ([0, 0, 0, 0, 1] : List Nat) ∧
    update_vec [0, 0, 0, 0, 1] 2 = ([2, 0, 0, 0, 1], true) ∧
    ¬ List.Sorted (· ≤ ·) ((update_vec [0, 0, 0, 0, 1] 2).1) := by
  refine ⟨by decide, by decide, by decide⟩

/-- C2 amended: when the list has fewer than 5 entries the updated list
is sorted ascending (insert branch); when the list is already full the
replacement overwrites one entry in place without re-sorting, and the
result may be unsorted. -/
theorem C2_amended_insert_sorted (v : List Nat) (x : Nat)
    (h5 : v.length < NB_HIGHSOCRES) :
    List.Sorted (· ≤ ·) (update_vec v x).1 := by
  simp only [update_vec, if_pos h5]
  exact List.sorted_insertionSort (· ≤ ·) (v ++ [x])

theorem C2_amended_witness :
    List.Sorted (· ≤ ·) (update_vec [3] 1).1 :=
  C2_amended_insert_sorted [3] 1 (by decide)

/-- C3 is false as stated: the list `[5, 3, 0, 0, 0]` is reachable from
the empty list by `update_vec` calls, its minimum is 0, and
`update_vec` with the value 4 replaces the entry 3 — not a minimum
entry — because the loop overwrites the first entry smaller than the
new value. -/
theorem C3_counterexample :
    List.foldl (fun v x => (update_vec v x).1) ([] : List Nat) [0, 0, 0, 0, 0, 5, 3] =
      [5, 3, 0, 0, 0] ∧
    update_vec [5, 3, 0, 0, 0] 4 = ([5, 4, 0, 0, 0], true) ∧
    ([5, 3, 0, 0, 0] : List Nat).min? = some 0 ∧
    ([5, 4, 0, 0, 0] : List Nat).count 0 = 3 ∧
    ([5, 3, 0, 0, 0] : List Nat).count 0 = 3 := by
  refine ⟨by decide, by decide, by decide, by decide, by decide⟩

/-- C3 amended: `update_vec` never makes the list longer than 5
entries; when the list already has 5 entries, the value is incorporated
iff it exceeds some entry (equivalently the minimum), and in that case
exactly one entry changes — the first entry smaller than the value,
which is the minimum entry only when the list is sorted ascending. -/
theorem C3_amended_replaces_first_smaller (v : List Nat) (x : Nat) :
    (v.length ≤ 5 → ((update_vec v x).1).length ≤ 5) ∧
    (v.length = 5 →
      (((update_vec v x).2 = true) ↔ ∃ e ∈ v, e < x) ∧
      ((update_vec v x).2 = false → (update_vec v x).1 = v) ∧
      ((update_vec v x).2 = true →
        ∃ i, i < v.length ∧ v.getD i 0 < x ∧ (∀ j, j < i → x ≤ v.getD j 0) ∧
          (update_vec v x).1 = v.set i x)) := by
  constructor
  · intro h5
    by_cases hlt : v.length < NB_HIGHSOCRES
    · simp only [update_vec, if_pos hlt]
      have : (List.insertionSort (· ≤ ·) (v ++ [x])).length = v.length + 1 := by
        simp [List.length_insertionSort]
      rw [this]
      simp only [NB_HIGHSOCRES] at hlt
      omega
    · simp only [update_vec, if_neg hlt, replace_first_length]
      exact h5
  · intro h5
    have hnl : ¬ v.length < NB_HIGHSOCRES := by
      simp [NB_HIGHSOCRES, h5]
    refine ⟨?_, ?_, ?_⟩ <;> simp only [update_vec, if_neg hnl]
    · exact replace_first_true_iff x v
    · exact replace_first_false x v
    · exact replace_first_set x v

theorem C3_amended_witness :
    ((update_vec [1, 2, 3, 4, 5] 3).1).length ≤ 5 ∧
    (((update_vec [1, 2, 3, 4, 5] 3).2 = true) ↔
      ∃ e ∈ ([1, 2, 3, 4, 5] : List Nat), e < 3) :=
  ⟨(C3_amended_replaces_first_smaller [1, 2, 3, 4, 5] 3).1 (by decide),
   ((C3_amended_replaces_first_smaller [1, 2, 3, 4, 5] 3).2 (by decide)).1⟩

/-- C10: on a first-ever session (no prior ledger), both the final
score and the final line count are labelled as new highscores whatever
their values, and the ledger is saved as two one-element lists holding
just the session's counters. -/
theorem C10_first_session_report (t : Tetris) :
    (print_game_information none t).new_highest_score = true ∧
    (print_game_information none t).new_highest_lines_sent = true ∧
    (print_game_information none t).saved = some ([t.score], [t.nb_lines]) :=
  ⟨rfl, rfl, rfl⟩

/-! ### Claims about piece movement -/

/-- C8: `change_position` commits the new coordinates and returns true
exactly when `test_position` holds, and otherwise returns false leaving
the piece — in particular its position — exactly as it was. -/
theorem C8_change_position_atomic (g : Grid) (p : Piece) (nx ny : Int) :
    ((change_position g p nx ny).2 = test_position g p nx ny) ∧
    (test_position g p nx ny = true →
      change_position g p nx ny = ({ p with x := nx, y := ny }, true)) ∧
    (test_position g p nx ny = false →
      change_position g p nx ny = (p, false)) := by
  cases h : test_position g p nx ny <;> simp [change_position, h]

theorem C8_change_position_witness :
    change_position empty_grid (o_piece 4 0) 4 1 = ({ o_piece 4 0 with x := 4, y := 1 }, true) :=
  (C8_change_position_atomic empty_grid (o_piece 4 0) 4 1).2.1 (by decide)

/-- C1: when a freshly spawned piece fails `test_current_position`, the
engine ends the session in game over, reporting exactly the score, line
count and level accumulated so far; the grid is not mutated further,
and the rejected piece is neither stored as the current piece nor
merged. -/
theorem C1_spawn_failure_game_over (t : Tetris) (p : Piece)
    (loaded : Option (List Nat × List Nat))
    (h1 : t.current_piece = none)
    (h2 : test_current_position t.game_map p = false) :
    spawn_step t p loaded = SpawnResult.gameOver (print_game_information loaded t) t ∧
    ∀ rep tf, spawn_step t p loaded = SpawnResult.gameOver rep tf →
      tf.game_map = t.game_map ∧ tf.current_piece = none ∧
      rep.score = t.score ∧ rep.nb_lines = t.nb_lines ∧ rep.level = t.current_level := by
  have hs : spawn_step t p loaded = SpawnResult.gameOver (print_game_information loaded t) t := by
    simp [spawn_step, h1, h2]
  refine ⟨hs, ?_⟩
  intro rep tf heq
  rw [hs] at heq
  injection heq with ha hb
  subst ha
  subst hb
  refine ⟨rfl, h1, ?_, ?_, ?_⟩ <;>
    (cases loaded with
     | none => rfl
     | some pr =>
       cases pr with
       | mk a b => rfl)

theorem C1_spawn_failure_witness :
    spawn_step (fresh_tetris full_grid none) (unit_piece 4 0) none =
      SpawnResult.gameOver (print_game_information none (fresh_tetris full_grid none))
        (fresh_tetris full_grid none) :=
  (C1_spawn_failure_game_over (fresh_tetris full_grid none) (unit_piece 4 0) none rfl
    (by decide)).1

/-! ### Lemmas about the event loop -/

theorem rotate_coords (g : Grid) (p : Piece) :
    (rotate g p).x = p.x ∧ (rotate g p).y = p.y := by
  unfold rotate
  dsimp only
  split
  · exact ⟨rfl, rfl⟩
  · exact ⟨rfl, rfl⟩

theorem change_position_of_false (g : Grid) (p : Piece) (nx ny : Int)
    (h : (change_position g p nx ny).2 = false) :
    (change_position g p nx ny).1 = p := by
  cases ht : test_position g p nx ny with
  | false => simp [change_position, ht]
  | true => simp [change_position, ht] at h

theorem handle_events_none (t : Tetris) (timer now : Nat) (evs : List GEvent)
    (hp : t.current_piece = none) :
    handle_events t timer now evs =
      { tetris := t, quit := false, timer := timer, made_permanent := false } := by
  unfold handle_events
  rw [hp]

theorem handle_events_some (t : Tetris) (p : Piece) (timer now : Nat) (evs : List GEvent)
    (hp : t.current_piece = some p) :
    handle_events t timer now evs =
      finish_frame t now (post_move_check t.game_map (process_events t.game_map now evs
        { piece := p, tmp_x := p.x, tmp_y := p.y, quit := false, timer := timer
          make_permanent := false })) := by
  unfold handle_events
  rw [hp]

theorem process_events_timer (g : Grid) (now : Nat) (evs : List GEvent) :
    ∀ s : LoopState,
      (process_events g now evs s).timer =
        if GEvent.softDrop ∈ consumed_events evs then now else s.timer := by
  induction evs with
  | nil => intro s; simp [process_events, consumed_events]
  | cons e es ih =>
    intro s
    cases e with
    | quit =>
      have hstep : process_events g now (GEvent.quit :: es) s = { s with quit := true } := rfl
      rw [hstep]
      simp [consumed_events]
    | softDrop =>
      have hstep : process_events g now (GEvent.softDrop :: es) s
          = process_events g now es { s with timer := now, tmp_y := s.tmp_y + 1 } := rfl
      rw [hstep, ih]
      simp [consumed_events]
    | right =>
      have hstep : process_events g now (GEvent.right :: es) s
          = process_events g now es { s with tmp_x := s.tmp_x + 1 } := rfl
      rw [hstep, ih]
      simp [consumed_events]
    | left =>
      have hstep : process_events g now (GEvent.left :: es) s
          = process_events g now es { s with tmp_x := s.tmp_x - 1 } := rfl
      rw [hstep, ih]
      simp [consumed_events]
    | rotateEv =>
      have hstep : process_events g now (GEvent.rotateEv :: es) s
          = process_events g now es { s with piece := rotate g s.piece } := rfl
      rw [hstep, ih]
      simp [consumed_events]
    | hardDrop =>
      have hstep : process_events g now (GEvent.hardDrop :: es) s
          = process_events g now es
              { s with piece := hard_drop g s.piece, make_permanent := true } := rfl
      rw [hstep, ih]
      simp [consumed_events]

theorem process_events_no_drops (g : Grid) (now : Nat) (evs : List GEvent) :
    ∀ s : LoopState,
      GEvent.hardDrop ∉ consumed_events evs →
      net_dy (consumed_events evs) = 0 →
      (process_events g now evs s).make_permanent = s.make_permanent ∧
      (process_events g now evs s).tmp_y = s.tmp_y ∧
      (process_events g now evs s).piece.y = s.piece.y := by
  induction evs with
  | nil => intro s _ _; exact ⟨rfl, rfl, rfl⟩
  | cons e es ih =>
    intro s h1 h2
    cases e with
    | quit => exact ⟨rfl, rfl, rfl⟩
    | softDrop => simp [consumed_events, net_dy] at h2
    | hardDrop => simp [consumed_events] at h1
    | right =>
      have h1' : GEvent.hardDrop ∉ consumed_events es := by
        simp [consumed_events] at h1
        exact h1
      have h2' : net_dy (consumed_events es) = 0 := h2
      have hstep : process_events g now (GEvent.right :: es) s
          = process_events g now es { s with tmp_x := s.tmp_x + 1 } := rfl
      rw [hstep]
      exact ih _ h1' h2'
    | left =>
      have h1' : GEvent.hardDrop ∉ consumed_events es := by
        simp [consumed_events] at h1
        exact h1
      have h2' : net_dy (consumed_events es) = 0 := h2
      have hstep : process_events g now (GEvent.left :: es) s
          = process_events g now es { s with tmp_x := s.tmp_x - 1 } := rfl
      rw [hstep]
      exact ih _ h1' h2'
    | rotateEv =>
      have h1' : GEvent.hardDrop ∉ consumed_events es := by
        simp [consumed_events] at h1
        exact h1
      have h2' : net_dy (consumed_events es) = 0 := h2
      have hstep : process_events g now (GEvent.rotateEv :: es) s
          = process_events g now es { s with piece := rotate g s.piece } := rfl
      rw [hstep]
      obtain ⟨a, b, c⟩ := ih { s with piece := rotate g s.piece } h1' h2'
      refine ⟨a, b, ?_⟩
      rw [c]
      exact (rotate_coords g s.piece).2

theorem process_events_moves (g : Grid) (now : Nat) (evs : List GEvent) :
    ∀ s : LoopState,
      (∀ e ∈ evs, e = GEvent.left ∨ e = GEvent.right ∨ e = GEvent.softDrop) →
      (process_events g now evs s).piece = s.piece ∧
      (process_events g now evs s).tmp_x = s.tmp_x + net_dx evs ∧
      (process_events g now evs s).tmp_y = s.tmp_y + (net_dy evs : Int) ∧
      (process_events g now evs s).make_permanent = s.make_permanent := by
  induction evs with
  | nil =>
    intro s _
    refine ⟨rfl, ?_, ?_, rfl⟩
    · show s.tmp_x = s.tmp_x + net_dx []
      simp [net_dx]
    · show s.tmp_y = s.tmp_y + ((net_dy [] : Nat) : Int)
      simp [net_dy]
  | cons e es ih =>
    intro s hm
    have hme : e = GEvent.left ∨ e = GEvent.right ∨ e = GEvent.softDrop :=
      hm e (List.mem_cons_self e es)
    have hmes : ∀ e' ∈ es, e' = GEvent.left ∨ e' = GEvent.right ∨ e' = GEvent.softDrop :=
      fun e' h' => hm e' (List.mem_cons_of_mem e h')
    rcases hme with rfl | rfl | rfl
    · have hstep : process_events g now (GEvent.left :: es) s
          = process_events g now es { s with tmp_x := s.tmp_x - 1 } := rfl
      have hdx : net_dx (GEvent.left :: es) = net_dx es - 1 := rfl
      have hdy : net_dy (GEvent.left :: es) = net_dy es := rfl
      rw [hstep]
      obtain ⟨a, b, c, d⟩ := ih _ hmes
      refine ⟨a, ?_, ?_, d⟩
      · rw [b, hdx]
        dsimp only
        omega
      · rw [c, hdy]
    · have hstep : process_events g now (GEvent.right :: es) s
          = process_events g now es { s with tmp_x := s.tmp_x + 1 } := rfl
      have hdx : net_dx (GEvent.right :: es) = net_dx es + 1 := rfl
      have hdy : net_dy (GEvent.right :: es) = net_dy es := rfl
      rw [hstep]
      obtain ⟨a, b, c, d⟩ := ih _ hmes
      refine ⟨a, ?_, ?_, d⟩
      · rw [b, hdx]
        dsimp only
        omega
      · rw [c, hdy]
    · have hstep : process_events g now (GEvent.softDrop :: es) s
          = process_events g now es { s with timer := now, tmp_y := s.tmp_y + 1 } := rfl
      have hdx : net_dx (GEvent.softDrop :: es) = net_dx es := rfl
      have hdy : net_dy (GEvent.softDrop :: es) = net_dy es + 1 := rfl
      rw [hstep]
      obtain ⟨a, b, c, d⟩ := ih _ hmes
      refine ⟨a, ?_, ?_, d⟩
      · rw [b, hdx]
      · rw [c, hdy]
        dsimp only
        push_cast
        omega

theorem post_move_check_timer (g : Grid) (s : LoopState) :
    (post_move_check g s).timer = s.timer := by
  unfold post_move_check
  split
  · rfl
  · dsimp only
    split
    · rfl
    · rfl

theorem post_move_check_keeps (g : Grid) (s : LoopState)
    (hmp : s.make_permanent = false) (hy : s.tmp_y = s.piece.y) :
    (post_move_check g s).make_permanent = false ∧
    ∃ q : Piece, post_move_check g s = { s with piece := q } := by
  unfold post_move_check
  rw [hmp]
  simp only [Bool.false_eq_true, if_false]
  split
  · rename_i hcond
    exfalso
    obtain ⟨h2, hne⟩ := hcond
    have hq := change_position_of_false g s.piece s.tmp_x s.tmp_y h2
    rw [hq] at hne
    exact hne hy
  · exact ⟨rfl, _, rfl⟩

theorem post_move_check_success (g : Grid) (s : LoopState) (q : Piece)
    (hmp : s.make_permanent = false)
    (hch : change_position g s.piece s.tmp_x s.tmp_y = (q, true)) :
    post_move_check g s = { s with piece := q } := by
  simp [post_move_check, hmp, hch]

theorem finish_frame_true (t : Tetris) (now : Nat) (s : LoopState)
    (h : s.make_permanent = true) :
    finish_frame t now s =
      { tetris := make_permanent { t with current_piece := some s.piece }
        quit := s.quit, timer := now, made_permanent := true } := by
  simp [finish_frame, h]

theorem finish_frame_false (t : Tetris) (now : Nat) (s : LoopState)
    (h : s.make_permanent = false) :
    finish_frame t now s =
      { tetris := { t with current_piece := some s.piece }
        quit := s.quit, timer := s.timer, made_permanent := false } := by
  simp [finish_frame, h]

theorem can_place_y_lt (g : Grid) (bm : List (List Nat)) (x y : Int)
    (hb : has_block bm = true) (hc : can_place g bm x y = true) :
    y < (grid_height : Int) := by
  simp only [has_block, List.any_eq_true, List.mem_range] at hb
  obtain ⟨i, hi, hrow⟩ := hb
  obtain ⟨j, hj, hcell⟩ := hrow
  simp only [can_place, List.all_eq_true, List.mem_range] at hc
  have hij := hc i hi j hj
  rw [Bool.or_eq_true] at hij
  rcases hij with hz | hocc
  · rw [beq_iff_eq] at hz
    rw [bne_iff_ne] at hcell
    exact absurd hz hcell
  · have hocc' : is_occupied g (x + (j : Int)) (y + (i : Int)) = false := by
      simpa using hocc
    by_contra hlt
    push_neg at hlt
    have hge : (grid_height : Int) ≤ y + (i : Int) := by
      have : (0 : Int) ≤ (i : Int) := Int.natCast_nonneg i
      omega
    have htrue : is_occupied g (x + (j : Int)) (y + (i : Int)) = true := by
      simp [is_occupied, hge]
    rw [htrue] at hocc'
    simp at hocc'

theorem hard_drop_loop_spec (g : Grid) :
    ∀ (fuel : Nat) (p : Piece), has_block p.bitmap = true →
      (grid_height : Int) - p.y ≤ (fuel : Int) →
      (hard_drop_loop g p.x fuel p).x = p.x ∧
      (hard_drop_loop g p.x fuel p).states = p.states ∧
      (hard_drop_loop g p.x fuel p).current_state = p.current_state ∧
      p.y ≤ (hard_drop_loop g p.x fuel p).y ∧
      can_place g p.bitmap p.x ((hard_drop_loop g p.x fuel p).y + 1) = false ∧
      ∀ k : Int, p.y < k → k ≤ (hard_drop_loop g p.x fuel p).y →
        can_place g p.bitmap p.x k = true := by
  intro fuel
  induction fuel with
  | zero =>
    intro p hb hfuel
    have h0 : hard_drop_loop g p.x 0 p = p := rfl
    rw [h0]
    refine ⟨rfl, rfl, rfl, le_refl _, ?_, ?_⟩
    · cases hcp : can_place g p.bitmap p.x (p.y + 1) with
      | false => rfl
      | true =>
        exfalso
        have hy := can_place_y_lt g p.bitmap p.x (p.y + 1) hb hcp
        omega
    · intro k hk1 hk2
      omega
  | succ fuel ih =>
    intro p hb hfuel
    cases hcp : test_position g p p.x (p.y + 1) with
    | false =>
      have hch : change_position g p p.x (p.y + 1) = (p, false) := by
        simp [change_position, hcp]
      have hstep : hard_drop_loop g p.x (fuel + 1) p = p := by
        show (let r := change_position g p p.x (p.y + 1);
              if r.2 then hard_drop_loop g p.x fuel r.1 else r.1) = p
        rw [hch]
        rfl
      rw [hstep]
      refine ⟨rfl, rfl, rfl, le_refl _, hcp, ?_⟩
      intro k hk1 hk2
      omega
    | true =>
      have hch : change_position g p p.x (p.y + 1)
          = ({ p with x := p.x, y := p.y + 1 }, true) := by
        simp [change_position, hcp]
      have hstep : hard_drop_loop g p.x (fuel + 1) p
          = hard_drop_loop g p.x fuel { p with x := p.x, y := p.y + 1 } := by
        show (let r := change_position g p p.x (p.y + 1);
              if r.2 then hard_drop_loop g p.x fuel r.1 else r.1)
            = hard_drop_loop g p.x fuel { p with x := p.x, y := p.y + 1 }
        rw [hch]
        rfl
      have hfuel' : (grid_height : Int) - ({ p with x := p.x, y := p.y + 1 } : Piece).y
          ≤ (fuel : Int) := by
        have hy := can_place_y_lt g p.bitmap p.x (p.y + 1) hb hcp
        show (grid_height : Int) - (p.y + 1) ≤ (fuel : Int)
        push_cast at hfuel ⊢
        omega
      obtain ⟨a1, a2, a3, a4, a5, a6⟩ := ih { p with x := p.x, y := p.y + 1 } hb hfuel'
      rw [hstep]
      refine ⟨a1, a2, a3, ?_, a5, ?_⟩
      · have : p.y ≤ p.y + 1 := by omega
        exact le_trans this a4
      · intro k hk1 hk2
        rcases (show k = p.y + 1 ∨ p.y + 1 < k by omega) with rfl | hgt
        · exact hcp
        · exact a6 k hgt hk2

theorem hard_drop_spec (g : Grid) (p : Piece) (hb : has_block p.bitmap = true) :
    (hard_drop g p).x = p.x ∧
    (hard_drop g p).states = p.states ∧
    (hard_drop g p).current_state = p.current_state ∧
    p.y ≤ (hard_drop g p).y ∧
    can_place g p.bitmap p.x ((hard_drop g p).y + 1) = false ∧
    ∀ k : Int, p.y < k → k ≤ (hard_drop g p).y → can_place g p.bitmap p.x k = true := by
  have hfuel : (grid_height : Int) - p.y
      ≤ ((((grid_height : Int) - p.y).toNat : Nat) : Int) :=
    Int.self_le_toNat _
  exact hard_drop_loop_spec g (((grid_height : Int) - p.y).toNat) p hb hfuel

/-! ### Claims about the frame loop -/

/-- C4 is false as stated: a soft-drop input stamps the gravity timer
with the current time at the moment the Down event is consumed, even
when the downward move succeeds and no landing occurs.  Here the move
succeeds (no merge, the piece descends one row), yet the timer changed
from 0 to the frame's `now` value 1. -/
theorem C4_counterexample :
    (handle_events (fresh_tetris empty_grid (some (unit_piece 4 0))) 0 1
        [GEvent.softDrop]).made_permanent = false ∧
    (handle_events (fresh_tetris empty_grid (some (unit_piece 4 0))) 0 1
        [GEvent.softDrop]).tetris.current_piece.map Piece.y = some 1 ∧
    (handle_events (fresh_tetris empty_grid (some (unit_piece 4 0))) 0 1
        [GEvent.softDrop]).timer = 1 ∧
    (handle_events (fresh_tetris empty_grid (some (unit_piece 4 0))) 0 1
        [GEvent.softDrop]).timer ≠ 0 := by
  refine ⟨by decide, by decide, by decide, by decide⟩

/-- C4 amended: within `handle_events` the gravity timer is set to the
current time exactly when a soft-drop event is consumed (whether or not
the move succeeds) or when the piece is merged; otherwise it is left
unchanged. -/
theorem C4_amended_timer_reset (t : Tetris) (p : Piece) (timer now : Nat)
    (evs : List GEvent) (hp : t.current_piece = some p) :
    (handle_events t timer now evs).timer =
      if (handle_events t timer now evs).made_permanent = true
          ∨ GEvent.softDrop ∈ consumed_events evs then now
      else timer := by
  rw [handle_events_some t p timer now evs hp]
  have ht1 := process_events_timer t.game_map now evs
    { piece := p, tmp_x := p.x, tmp_y := p.y, quit := false, timer := timer
      make_permanent := false }
  have hpm := post_move_check_timer t.game_map (process_events t.game_map now evs
    { piece := p, tmp_x := p.x, tmp_y := p.y, quit := false, timer := timer
      make_permanent := false })
  cases hm : (post_move_check t.game_map (process_events t.game_map now evs
      { piece := p, tmp_x := p.x, tmp_y := p.y, quit := false, timer := timer
        make_permanent := false })).make_permanent with
  | true =>
    rw [finish_frame_true t now _ hm]
    simp
  | false =>
    rw [finish_frame_false t now _ hm]
    dsimp only
    rw [hpm, ht1]
    by_cases hmem : GEvent.softDrop ∈ consumed_events evs <;> simp [hmem]

theorem C4_amended_witness :
    (handle_events (fresh_tetris empty_grid (some (unit_piece 4 0))) 0 1
        [GEvent.softDrop]).timer =
      if (handle_events (fresh_tetris empty_grid (some (unit_piece 4 0))) 0 1
            [GEvent.softDrop]).made_permanent = true
          ∨ GEvent.softDrop ∈ consumed_events [GEvent.softDrop] then 1
      else 0 :=
  C4_amended_timer_reset (fresh_tetris empty_grid (some (unit_piece 4 0)))
    (unit_piece 4 0) 0 1 [GEvent.softDrop] rfl

/-- C5 is false as stated: movement events are not applied one at a
time against the current state; their displacements accumulate into
`tmp_x`/`tmp_y` and a single combined `change_position` is attempted at
the end of the frame.  Two move-right events in one frame leave the
piece at column 8 (the combined target column 10 is rejected), while a
frame with a single move-right event moves the same piece to column
9 — per-event application would have allowed the first step. -/
theorem C5_counterexample :
    (handle_events (fresh_tetris empty_grid (some (unit_piece 8 0))) 0 0
        [GEvent.right, GEvent.right]).tetris.current_piece.map Piece.x = some 8 ∧
    (handle_events (fresh_tetris empty_grid (some (unit_piece 8 0))) 0 0
        [GEvent.right]).tetris.current_piece.map Piece.x = some 9 := by
  refine ⟨by decide, by decide⟩

/-- C5 amended: left/right/down events within a frame accumulate into a
net displacement which is applied as one combined move attempt,
validated once against the grid at the end of the frame (rotations and
hard drops are applied immediately instead).  When the combined target
is free, the piece moves straight there. -/
theorem C5_amended_accumulated_move (t : Tetris) (p : Piece) (timer now : Nat)
    (evs : List GEvent) (hp : t.current_piece = some p)
    (hm : ∀ e ∈ evs, e = GEvent.left ∨ e = GEvent.right ∨ e = GEvent.softDrop)
    (hok : test_position t.game_map p (p.x + net_dx evs) (p.y + (net_dy evs : Int)) = true) :
    (handle_events t timer now evs).tetris.current_piece =
      some { p with x := p.x + net_dx evs, y := p.y + (net_dy evs : Int) } ∧
    (handle_events t timer now evs).made_permanent = false := by
  rw [handle_events_some t p timer now evs hp]
  obtain ⟨h1, h2, h3, h4⟩ := process_events_moves t.game_map now evs
    { piece := p, tmp_x := p.x, tmp_y := p.y, quit := false, timer := timer
      make_permanent := false } hm
  have h4' : (process_events t.game_map now evs
      { piece := p, tmp_x := p.x, tmp_y := p.y, quit := false, timer := timer
        make_permanent := false }).make_permanent = false := h4
  have hch : change_position t.game_map
      (process_events t.game_map now evs
        { piece := p, tmp_x := p.x, tmp_y := p.y, quit := false, timer := timer
          make_permanent := false }).piece
      (process_events t.game_map now evs
        { piece := p, tmp_x := p.x, tmp_y := p.y, quit := false, timer := timer
          make_permanent := false }).tmp_x
      (process_events t.game_map now evs
        { piece := p, tmp_x := p.x, tmp_y := p.y, quit := false, timer := timer
          make_permanent := false }).tmp_y
      = ({ p with x := p.x + net_dx evs, y := p.y + (net_dy evs : Int) }, true) := by
    rw [h1, h2, h3]
    dsimp only
    simp [change_position, hok]
  have hs2 := post_move_check_success t.game_map
    (process_events t.game_map now evs
      { piece := p, tmp_x := p.x, tmp_y := p.y, quit := false, timer := timer
        make_permanent := false })
    { p with x := p.x + net_dx evs, y := p.y + (net_dy evs : Int) } h4' hch
  have hmp2 : (post_move_check t.game_map (process_events t.game_map now evs
      { piece := p, tmp_x := p.x, tmp_y := p.y, quit := false, timer := timer
        make_permanent := false })).make_permanent = false := by
    rw [hs2]
    exact h4'
  rw [finish_frame_false t now _ hmp2]
  rw [hs2]
  exact ⟨rfl, rfl⟩

theorem C5_amended_witness :
    (handle_events (fresh_tetris empty_grid (some (unit_piece 4 0))) 0 1
        [GEvent.left, GEvent.softDrop]).tetris.current_piece =
      some { unit_piece 4 0 with
             x := (unit_piece 4 0).x + net_dx [GEvent.left, GEvent.softDrop]
             y := (unit_piece 4 0).y + (net_dy [GEvent.left, GEvent.softDrop] : Int) } ∧
    (handle_events (fresh_tetris empty_grid (some (unit_piece 4 0))) 0 1
        [GEvent.left, GEvent.softDrop]).made_permanent = false :=
  C5_amended_accumulated_move (fresh_tetris empty_grid (some (unit_piece 4 0)))
    (unit_piece 4 0) 0 1 [GEvent.left, GEvent.softDrop] rfl (by decide) (by decide)

/-- C6: a hard-drop input moves the piece straight down one row at a
time — every intermediate row is individually reachable — until the
next downward step fails, and the piece is merged into the grid in the
same frame, with no further gravity wait. -/
theorem C6_hard_drop_lands_and_merges (t : Tetris) (p : Piece) (timer now : Nat)
    (hp : t.current_piece = some p) (hb : has_block p.bitmap = true) :
    (handle_events t timer now [GEvent.hardDrop]).made_permanent = true ∧
    (handle_events t timer now [GEvent.hardDrop]).tetris =
      make_permanent { t with current_piece := some (hard_drop t.game_map p) } ∧
    (handle_events t timer now [GEvent.hardDrop]).tetris.current_piece = none ∧
    (hard_drop t.game_map p).x = p.x ∧
    p.y ≤ (hard_drop t.game_map p).y ∧
    (∀ k : Int, p.y < k → k ≤ (hard_drop t.game_map p).y →
      can_place t.game_map p.bitmap p.x k = true) ∧
    test_position t.game_map (hard_drop t.game_map p) p.x
      ((hard_drop t.game_map p).y + 1) = false := by
  obtain ⟨a1, a2, a3, a4, a5, a6⟩ := hard_drop_spec t.game_map p hb
  have hbm : (hard_drop t.game_map p).bitmap = p.bitmap := by
    unfold Piece.bitmap
    rw [a2, a3]
  rw [handle_events_some t p timer now [GEvent.hardDrop] hp]
  have hpe : process_events t.game_map now [GEvent.hardDrop]
      { piece := p, tmp_x := p.x, tmp_y := p.y, quit := false, timer := timer
        make_permanent := false }
      = { piece := hard_drop t.game_map p, tmp_x := p.x, tmp_y := p.y, quit := false
          timer := timer, make_permanent := true } := rfl
  rw [hpe]
  have hpm : post_move_check t.game_map
      { piece := hard_drop t.game_map p, tmp_x := p.x, tmp_y := p.y, quit := false
        timer := timer, make_permanent := true }
      = { piece := hard_drop t.game_map p, tmp_x := p.x, tmp_y := p.y, quit := false
          timer := timer, make_permanent := true } := by
    simp [post_move_check]
  rw [hpm]
  rw [finish_frame_true t now _ rfl]
  refine ⟨rfl, rfl, ?_, a1, a4, a6, ?_⟩
  · rfl
  · unfold test_position
    rw [hbm]
    exact a5

theorem C6_hard_drop_witness :
    (handle_events (fresh_tetris empty_grid (some (o_piece 4 0))) 0 1
        [GEvent.hardDrop]).made_permanent = true ∧
    (handle_events (fresh_tetris empty_grid (some (o_piece 4 0))) 0 1
        [GEvent.hardDrop]).tetris.current_piece = none := by
  have h := C6_hard_drop_lands_and_merges (fresh_tetris empty_grid (some (o_piece 4 0)))
    (o_piece 4 0) 0 1 rfl (by decide)
  exact ⟨h.1, h.2.2.1⟩

/-- C7: in a frame with no hard drop and whose consumed events leave
the vertical move target unchanged (only left/right movement, rotation
or quit), the piece is never merged: `handle_events` returns false and
the playfield and counters are untouched, whether or not the
purely-horizontal move or the rotation was rejected. -/
theorem C7_no_vertical_no_merge (t : Tetris) (timer now : Nat) (evs : List GEvent)
    (h1 : GEvent.hardDrop ∉ consumed_events evs)
    (h2 : net_dy (consumed_events evs) = 0) :
    (handle_events t timer now evs).made_permanent = false ∧
    (handle_events t timer now evs).tetris.game_map = t.game_map ∧
    (handle_events t timer now evs).tetris.score = t.score ∧
    (handle_events t timer now evs).tetris.nb_lines = t.nb_lines := by
  cases hcp : t.current_piece with
  | none =>
    rw [handle_events_none t timer now evs hcp]
    exact ⟨rfl, rfl, rfl, rfl⟩
  | some p =>
    rw [handle_events_some t p timer now evs hcp]
    obtain ⟨hmp, hty, hpy⟩ := process_events_no_drops t.game_map now evs
      { piece := p, tmp_x := p.x, tmp_y := p.y, quit := false, timer := timer
        make_permanent := false } h1 h2
    have hy : (process_events t.game_map now evs
        { piece := p, tmp_x := p.x, tmp_y := p.y, quit := false, timer := timer
          make_permanent := false }).tmp_y
        = (process_events t.game_map now evs
            { piece := p, tmp_x := p.x, tmp_y := p.y, quit := false, timer := timer
              make_permanent := false }).piece.y := by
      rw [hty, hpy]
    obtain ⟨hk, q, hq⟩ := post_move_check_keeps t.game_map
      (process_events t.game_map now evs
        { piece := p, tmp_x := p.x, tmp_y := p.y, quit := false, timer := timer
          make_permanent := false }) hmp hy
    rw [hq] at hk ⊢
    rw [finish_frame_false t now _ hk]
    exact ⟨rfl, rfl, rfl, rfl⟩

theorem C7_no_vertical_witness :
    (handle_events (fresh_tetris empty_grid (some (unit_piece 4 0))) 0 1
        [GEvent.left, GEvent.rotateEv]).made_permanent = false ∧
    (handle_events (fresh_tetris empty_grid (some (unit_piece 4 0))) 0 1
        [GEvent.left, GEvent.rotateEv]).tetris.game_map =
      (fresh_tetris empty_grid (some (unit_piece 4 0))).game_map ∧
    (handle_events (fresh_tetris empty_grid (some (unit_piece 4 0))) 0 1
        [GEvent.left, GEvent.rotateEv]).tetris.score =
      (fresh_tetris empty_grid (some (unit_piece 4 0))).score ∧
    (handle_events (fresh_tetris empty_grid (some (unit_piece 4 0))) 0 1
        [GEvent.left, GEvent.rotateEv]).tetris.nb_lines =
      (fresh_tetris empty_grid (some (unit_piece 4 0))).nb_lines :=
  C7_no_vertical_no_merge (fresh_tetris empty_grid (some (unit_piece 4 0))) 0 1
    [GEvent.left, GEvent.rotateEv] (by decide) (by decide)
